import Mathlib

/-!
Shallow embedding of the document-ingestion pipeline of `app.py`:
the text-extraction adapters (`ocr_image_via_api`, `extract_text_from_pdf`),
the structured-field parser (`extract_structured_data`), the reference
database (`dummy_database`, `get_database_data`), the comparator
(`compare_data`) and the per-file orchestration fragment of `index`.

Python strings are modelled as `List Char`.  The embedding mirrors, as
executable Lean functions: `str.strip` (restricted to ASCII whitespace,
which is all the repository manipulates), `text.split` on a newline,
`dict` reads and writes on association lists in insertion order, truthiness
of optional strings and dictionaries, and the field regex
`^\s*FIELD\s*:\s*(.*)` compiled with `re.IGNORECASE` and applied with
`.match` to each stripped line.
-/

abbrev Str := List Char

/-- ASCII whitespace, the characters recognised by `\s` and `str.strip`
in the ASCII range. -/
def isSpace (c : Char) : Bool :=
  c = ' ' || c = '\t' || c = '\n' || c = '\r' || c = '\x0b' || c = '\x0c'

/-- Leading-whitespace removal, as in `str.lstrip`. -/
def lstrip (s : Str) : Str := s.dropWhile isSpace

/-- Trailing-whitespace removal, as in `str.rstrip`. -/
def rstrip (s : Str) : Str := (s.reverse.dropWhile isSpace).reverse

/-- The Python method `str.strip`. -/
def strip (s : Str) : Str := rstrip (lstrip s)

/-- The Python expression `text.split` at a newline separator: splitting
the empty string gives one empty piece, and every newline separates two
(possibly empty) pieces. -/
def splitLines : Str → List Str
  | [] => [[]]
  | c :: rest =>
    if c = '\n' then [] :: splitLines rest
    else
      match splitLines rest with
      | h :: hs => (c :: h) :: hs
      | [] => [[c]]

/-- The Python method `str.startswith`. -/
def startsWith : Str → Str → Bool
  | [], _ => true
  | _ :: _, [] => false
  | p :: ps, c :: cs => p = c && startsWith ps cs

/-- Case-insensitive literal matching at the head of a string:
`dropPrefixCI pat s` returns the remainder of `s` after an occurrence of
the literal `pat` at its head, comparing characters through `Char.toLower`.
This embeds the regex fragment `re.escape(field)` under `re.IGNORECASE`. -/
def dropPrefixCI : Str → Str → Option Str
  | [], s => some s
  | _ :: _, [] => none
  | p :: ps, c :: cs => if p.toLower = c.toLower then dropPrefixCI ps cs else none

/-- Embedding of `re.compile(r"^\s*" + re.escape(field) + r"\s*:\s*(.*)",
re.IGNORECASE)` applied with `.match` to an already-stripped line `s`,
returning `match.group(1).strip()` on success: the field label
(case-insensitively), optional whitespace, a colon, then the rest of the
line stripped.  On a stripped line the leading `\s*` can only match the
empty string, and `\s*:\s*(.*)` followed by an outer `.strip()` yields the
stripped remainder after the colon. -/
def matchCore (field s : Str) : Option Str :=
  match dropPrefixCI field s with
  | some rest =>
    match rest.dropWhile isSpace with
    | ':' :: r => some (strip r)
    | _ => none
  | none => none

/-- The inner `for line in lines` loop of `extract_structured_data`,
with its `break` on the first matching line. -/
def findFieldValue (field : Str) : List Str → Option Str
  | [] => none
  | line :: rest =>
    match matchCore field (strip line) with
    | some v => some v
    | none => findFieldValue field rest

/-- The list `field_names` of `extract_structured_data`. -/
def field_names : List Str :=
  ["Sr no.".toList, "Name".toList, "City".toList, "Age".toList,
   "Country".toList, "Address".toList]

/-- Python `dict` assignment `d[k] = v` on an association list kept in
insertion order: the first binding of `k` is updated in place, and a
missing key is appended. -/
def setKey (k : Str) (v : Option Str) : List (Str × Option Str) → List (Str × Option Str)
  | [] => [(k, v)]
  | (k', v') :: rest => if k' = k then (k', v) :: rest else (k', v') :: setKey k v rest

/-- Python `d.get(k)` on an association list: `none` when the key is
missing. -/
def getKey (k : Str) : List (Str × α) → Option α
  | [] => none
  | (k', v) :: rest => if k' = k then some v else getKey k rest

/-- Python `extracted_data.get(key)` on the parser output, where stored
values are themselves optional: a missing key and a key stored as `None`
both come back as `None`. -/
def pyGet (d : List (Str × Option Str)) (k : Str) : Option Str :=
  (getKey k d).join

/-- The function `extract_structured_data` of `app.py`: every field is
initialised to `None` in order, the text is stripped and split on
newlines, and for each field the first line whose stripped form matches
the field regex contributes its captured, stripped value. -/
def extract_structured_data (text : Str) : List (Str × Option Str) :=
  let lines := splitLines (strip text)
  List.foldl
    (fun data field =>
      match findFieldValue field lines with
      | some value => setKey field (some value) data
      | none => data)
    (field_names.map (fun field => (field, none)))
    field_names

/-- The mismatch record `{"db_value": ..., "extracted_value": ...}` stored
by `compare_data` for a non-matching key. -/
structure Mismatch where
  db_value : Str
  extracted_value : Option Str
  deriving DecidableEq, Repr

/-- The triple returned by `compare_data`. -/
structure CompResult where
  accuracy : ℚ
  mismatched_fields : List (Str × Mismatch)
  error : Option Str
  deriving DecidableEq, Repr

/-- The `for key, db_value in db_data.items()` loop of `compare_data`,
accumulating the match counter and the mismatch dictionary in iteration
order. -/
def compare_loop (extracted_data : List (Str × Option Str)) (entries : List (Str × Str)) :
    Nat × List (Str × Mismatch) :=
  List.foldl
    (fun acc kv =>
      let extracted_value := pyGet extracted_data kv.1
      if extracted_value = some kv.2 then (acc.1 + 1, acc.2)
      else (acc.1, acc.2 ++ [(kv.1, ⟨kv.2, extracted_value⟩)]))
    (0, [])
    entries

/-- The function `compare_data` of `app.py`.  The guard `if not db_data`
fires on a missing reference (`None`) and on an empty reference
dictionary alike, since both are falsy in Python.  Accuracy is the exact
rational value of `(matched_fields / total_fields) * 100`. -/
def compare_data (extracted_data : List (Str × Option Str))
    (db_data : Option (List (Str × Str))) : CompResult :=
  match db_data with
  | none => ⟨0, [], some "Sr no. not found in database.".toList⟩
  | some [] => ⟨0, [], some "Sr no. not found in database.".toList⟩
  | some entries =>
    let r := compare_loop extracted_data entries
    let total := entries.length
    ⟨if 0 < total then (r.1 : ℚ) / (total : ℚ) * 100 else 0, r.2, none⟩

/-- The `dummy_database` dictionary of `app.py`. -/
def dummy_database : List (Str × List (Str × Str)) :=
  [("S001".toList,
    [("Sr no.".toList, "S001".toList), ("Name".toList, "Hemanshu Kasar".toList),
     ("City".toList, "Nagpur".toList), ("Age".toList, "23".toList),
     ("Country".toList, "India".toList), ("Address".toList, "7, gurudeo nagar".toList)]),
   ("S002".toList,
    [("Sr no.".toList, "S002".toList), ("Name".toList, "John Doe".toList),
     ("City".toList, "New York".toList), ("Age".toList, "30".toList),
     ("Country".toList, "USA".toList), ("Address".toList, "123 Main St".toList)]),
   ("S003".toList,
    [("Sr no.".toList, "S003".toList), ("Name".toList, "Sarah Johnson".toList),
     ("City".toList, "London".toList), ("Age".toList, "27".toList),
     ("Country".toList, "UK".toList), ("Address".toList, "45 Oxford Street".toList)]),
   ("S004".toList,
    [("Sr no.".toList, "S004".toList), ("Name".toList, "Raj Patel".toList),
     ("City".toList, "Mumbai".toList), ("Age".toList, "32".toList),
     ("Country".toList, "India".toList), ("Address".toList, "201, Sea View Apartments".toList)]),
   ("S005".toList,
    [("Sr no.".toList, "S005".toList), ("Name".toList, "Maria Garcia".toList),
     ("City".toList, "Barcelona".toList), ("Age".toList, "29".toList),
     ("Country".toList, "Spain".toList), ("Address".toList, "Carrer de Mallorca, 15".toList)]),
   ("S006".toList,
    [("Sr no.".toList, "S006".toList), ("Name".toList, "Akira Tanaka".toList),
     ("City".toList, "Tokyo".toList), ("Age".toList, "35".toList),
     ("Country".toList, "Japan".toList), ("Address".toList, "2-1-3 Shibuya".toList)]),
   ("S007".toList,
    [("Sr no.".toList, "S007".toList), ("Name".toList, "Chen Wei".toList),
     ("City".toList, "Shanghai".toList), ("Age".toList, "26".toList),
     ("Country".toList, "China".toList), ("Address".toList, "88 Nanjing Road".toList)]),
   ("S008".toList,
    [("Sr no.".toList, "S008".toList), ("Name".toList, "Lucas Silva".toList),
     ("City".toList, "São Paulo".toList), ("Age".toList, "31".toList),
     ("Country".toList, "Brazil".toList), ("Address".toList, "Rua Augusta, 1200".toList)]),
   ("S009".toList,
    [("Sr no.".toList, "S009".toList), ("Name".toList, "Olivia Miller".toList),
     ("City".toList, "Sydney".toList), ("Age".toList, "28".toList),
     ("Country".toList, "Australia".toList), ("Address".toList, "42 Bondi Beach Road".toList)]),
   ("S010".toList,
    [("Sr no.".toList, "S010".toList), ("Name".toList, "Ahmed Hassan".toList),
     ("City".toList, "Cairo".toList), ("Age".toList, "33".toList),
     ("Country".toList, "Egypt".toList), ("Address".toList, "17 Al Tahrir Square".toList)])]

/-- The function `get_database_data` of `app.py`. -/
def get_database_data (sr_no : Str) : Option (List (Str × Str)) :=
  getKey sr_no dummy_database

/-- What `ocr_image_via_api` observes of its external call: a
`requests.exceptions.RequestException`, any other exception (unreadable
file, JSON decoding failure, an empty `ParsedResults` list, a missing
`ParsedText`), or a decoded JSON body described by its truthiness, its
`IsErroredOnProcessing` flag, the `ParsedText` of its first
`ParsedResults` entry when that list is non-empty, and its
`ErrorMessage`. -/
inductive OcrOutcome where
  | requestError (msg : Str)
  | otherError (msg : Str)
  | response (resultTruthy : Bool) (isErroredOnProcessing : Bool)
      (parsedText : Option Str) (errorMessage : Option Str)

/-- The function `ocr_image_via_api` of `app.py`, as a function of the
outcome of its external OCR Space call. -/
def ocr_image_via_api : OcrOutcome → Str
  | .requestError msg => "Error connecting to OCR Space API: ".toList ++ msg
  | .otherError msg => "Error during OCR processing: ".toList ++ msg
  | .response resultTruthy isErrored parsedText errorMessage =>
    if resultTruthy && !isErrored then
      match parsedText with
      | some t => strip t
      | none => "No text found in image.".toList
    else
      "OCR Space API Error: ".toList ++
        (match errorMessage with
         | some m => if m = [] then "Unknown error from OCR Space API.".toList else m
         | none => "Unknown error from OCR Space API.".toList)

/-- What `extract_text_from_pdf` observes of `pdfminer`: the extracted
text, or an exception. -/
inductive PdfOutcome where
  | ok (text : Str)
  | failure (msg : Str)

/-- The function `extract_text_from_pdf` of `app.py`, as a function of
the outcome of the `pdfminer` call. -/
def extract_text_from_pdf : PdfOutcome → Str
  | .ok t => strip t
  | .failure msg => "Error extracting text from PDF: ".toList ++ msg

/-- The per-file result dictionary assembled by `index`. -/
structure FileResult where
  structured_data : List (Str × Option Str)
  accuracy : Option ℚ
  mismatched_fields : List (Str × Mismatch)
  comparison_error : Option Str
  deriving DecidableEq, Repr

/-- The extension list checked by `index` before structured processing. -/
def allowed_extensions : List Str :=
  ["docx".toList, "pdf".toList, "png".toList, "jpg".toList, "jpeg".toList,
   "bmp".toList, "gif".toList, "tiff".toList]

/-- The per-file body of `index` in `app.py` (the part after text
extraction), parametric in the reference lookup and the comparator so
that their invocation or non-invocation is expressible.  Mirrors the
Python truthiness tests `if extracted_text and not
extracted_text.startswith("Error")` and `if sr_no_value` (an absent and
an empty `Sr no.` value are both falsy). -/
def process_file (lookupFn : Str → Option (List (Str × Str)))
    (compareFn : List (Str × Option Str) → Option (List (Str × Str)) → CompResult)
    (file_extension extracted_text : Str) : FileResult :=
  if extracted_text ≠ [] ∧ startsWith "Error".toList extracted_text = false then
    if file_extension ∈ allowed_extensions then
      let structured_data := extract_structured_data extracted_text
      match pyGet structured_data "Sr no.".toList with
      | some v =>
        if v ≠ [] then
          let r := compareFn structured_data (lookupFn v)
          ⟨structured_data, some r.accuracy, r.mismatched_fields, r.error⟩
        else
          ⟨structured_data, none, [],
            some "Sr no. not found in extracted data, cannot compare.".toList⟩
      | none =>
        ⟨structured_data, none, [],
          some "Sr no. not found in extracted data, cannot compare.".toList⟩
    else ⟨[], none, [], none⟩
  else ⟨[], none, [], none⟩

/-- The per-file body of `index` with the repository collaborators
plugged in. -/
def index (file_extension extracted_text : Str) : FileResult :=
  process_file get_database_data compare_data file_extension extracted_text


/-! ### Specification-side definitions

These formalise the wording of the specification and of the claims about
the field parser, to be compared with the code embedding above: a line
matches a field when, after trimming leading and trailing whitespace, it
starts with the field label (case-insensitively) followed by optional
whitespace and a colon; the value is everything after the first colon on
the line, trimmed; the field value comes from the first matching line of
the text, split on newlines, scanned top to bottom. -/

/-- A line matches a field when its trimmed form starts with the field
label (case-insensitively) followed by optional whitespace and a colon. -/
def specLineMatches (field line : Str) : Bool :=
  match dropPrefixCI field (strip line) with
  | some rest =>
    match rest.dropWhile isSpace with
    | ':' :: _ => true
    | _ => false
  | none => false

/-- Splits a line at its first colon: the parts before and after it. -/
def firstColonSplit : Str → Option (Str × Str)
  | [] => none
  | c :: rest =>
    if c = ':' then some ([], rest)
    else
      match firstColonSplit rest with
      | some pr => some (c :: pr.1, pr.2)
      | none => none

/-- Everything after the first colon on the line, trimmed of surrounding
whitespace (`[]` when the line has no colon, a case that cannot arise on
a matching line). -/
def specLineValue (line : Str) : Str :=
  match firstColonSplit line with
  | some pr => strip pr.2
  | none => []

/-- The first matching line of a line list determines the field value. -/
def findLine (field : Str) (ls : List Str) : Option Str :=
  (ls.find? fun l => specLineMatches field l).map specLineValue

/-- The parsing contract stated by the specification: the value assigned
to a field is the trimmed after-colon part of the first line of the text
(split on newline, scanned top to bottom) that matches the field. -/
def specParse (field text : Str) : Option Str :=
  findLine field (splitLines text)

/-- Claim-side characterisation of the comparator count: the number of
reference keys whose reference value equals the extracted value. -/
def matchedCount (extracted_data : List (Str × Option Str)) (entries : List (Str × Str)) : Nat :=
  entries.countP fun kv => decide (pyGet extracted_data kv.1 = some kv.2)

/-- Claim-side characterisation of the mismatch set: every non-matching
reference key, with the expected and the actual (possibly absent) value,
in reference order. -/
def mismatchSet (extracted_data : List (Str × Option Str)) (entries : List (Str × Str)) :
    List (Str × Mismatch) :=
  entries.filterMap fun kv =>
    if pyGet extracted_data kv.1 = some kv.2 then none
    else some (kv.1, ⟨kv.2, pyGet extracted_data kv.1⟩)

/-! ### Whitespace and stripping lemmas -/

lemma isSpace_ne_colon {c : Char} (h : isSpace c = true) : c ≠ ':' := by
  intro he
  subst he
  exact absurd h (by decide)

lemma all_takeWhile {p : Char → Bool} : ∀ (l : Str), ∀ c ∈ List.takeWhile p l, p c = true := by
  intro l
  induction l with
  | nil => simp [List.takeWhile]
  | cons d l ih =>
    rw [List.takeWhile_cons]
    by_cases hd : p d
    · rw [if_pos hd]
      intro c hc
      rcases List.mem_cons.mp hc with rfl | hc
      · exact hd
      · exact ih c hc
    · rw [if_neg hd]
      intro c hc
      exact absurd hc (List.not_mem_nil c)

lemma dropWhile_append_of_all {p : Char → Bool} {u v : Str}
    (h : ∀ c ∈ u, p c = true) : List.dropWhile p (u ++ v) = List.dropWhile p v := by
  induction u with
  | nil => rfl
  | cons c u ih =>
    rw [List.cons_append, List.dropWhile_cons_of_pos (h c (List.mem_cons_self c u))]
    exact ih fun d hd => h d (List.mem_cons_of_mem c hd)

lemma lstrip_eq_nil_iff {x : Str} : lstrip x = [] ↔ ∀ c ∈ x, isSpace c = true := by
  unfold lstrip
  induction x with
  | nil => simp
  | cons c x ih =>
    by_cases hc : isSpace c = true
    · rw [List.dropWhile_cons_of_pos hc]
      rw [ih]
      constructor
      · intro h d hd
        rcases List.mem_cons.mp hd with rfl | hd
        · exact hc
        · exact h d hd
      · intro h d hd
        exact h d (List.mem_cons_of_mem c hd)
    · rw [List.dropWhile_cons_of_neg hc]
      constructor
      · intro h
        exact absurd h (List.cons_ne_nil c x)
      · intro h
        exact absurd (h c (List.mem_cons_self c x)) hc

lemma lstrip_cons_ws {c : Char} {l : Str} (h : isSpace c = true) :
    lstrip (c :: l) = lstrip l := by
  unfold lstrip
  exact List.dropWhile_cons_of_pos h

lemma lstrip_append_of_ne_nil {x y : Str} (h : lstrip x ≠ []) :
    lstrip (x ++ y) = lstrip x ++ y := by
  induction x with
  | nil => exact absurd rfl h
  | cons c x ih =>
    by_cases hc : isSpace c = true
    · rw [List.cons_append]
      rw [show lstrip (c :: (x ++ y)) = lstrip (x ++ y) from lstrip_cons_ws hc]
      rw [lstrip_cons_ws hc] at h ⊢
      exact ih h
    · rw [List.cons_append]
      unfold lstrip
      rw [List.dropWhile_cons_of_neg hc, List.dropWhile_cons_of_neg hc]
      rfl

lemma rstrip_append_ws {x b : Str} (hb : ∀ c ∈ b, isSpace c = true) :
    rstrip (x ++ b) = rstrip x := by
  unfold rstrip
  rw [List.reverse_append]
  rw [dropWhile_append_of_all fun c hc => hb c (List.mem_reverse.mp hc)]

lemma strip_append_ws {x b : Str} (hb : ∀ c ∈ b, isSpace c = true) :
    strip (x ++ b) = strip x := by
  unfold strip
  by_cases h : lstrip x = []
  · have hx : ∀ c ∈ x, isSpace c = true := lstrip_eq_nil_iff.mp h
    have hxb : lstrip (x ++ b) = [] := by
      rw [lstrip_eq_nil_iff]
      intro c hc
      rcases List.mem_append.mp hc with hc | hc
      · exact hx c hc
      · exact hb c hc
    rw [hxb, h]
  · rw [lstrip_append_of_ne_nil h, rstrip_append_ws hb]

lemma strip_cons_ws {c : Char} {l : Str} (h : isSpace c = true) :
    strip (c :: l) = strip l := by
  unfold strip
  rw [lstrip_cons_ws h]

lemma strip_ws_front {a x : Str} (ha : ∀ c ∈ a, isSpace c = true) :
    strip (a ++ x) = strip x := by
  unfold strip
  unfold lstrip
  rw [dropWhile_append_of_all ha]

lemma strip_decomp (s : Str) :
    ∃ a b, s = a ++ strip s ++ b ∧ (∀ c ∈ a, isSpace c = true) ∧ (∀ c ∈ b, isSpace c = true) := by
  refine ⟨s.takeWhile isSpace, ((lstrip s).reverse.takeWhile isSpace).reverse, ?_, ?_, ?_⟩
  · have h1 : s = s.takeWhile isSpace ++ lstrip s := (List.takeWhile_append_dropWhile isSpace s).symm
    have h2 : lstrip s = strip s ++ ((lstrip s).reverse.takeWhile isSpace).reverse := by
      unfold strip rstrip
      have h3 : (lstrip s).reverse =
          (lstrip s).reverse.takeWhile isSpace ++ (lstrip s).reverse.dropWhile isSpace :=
        (List.takeWhile_append_dropWhile isSpace (lstrip s).reverse).symm
      calc lstrip s = (lstrip s).reverse.reverse := (List.reverse_reverse _).symm
        _ = ((lstrip s).reverse.takeWhile isSpace ++ (lstrip s).reverse.dropWhile isSpace).reverse := by
              rw [← h3]
        _ = ((lstrip s).reverse.dropWhile isSpace).reverse ++ ((lstrip s).reverse.takeWhile isSpace).reverse := by
              rw [List.reverse_append]
    conv_lhs => rw [h1, h2]
    rw [List.append_assoc]
  · exact all_takeWhile s
  · intro c hc
    exact all_takeWhile (lstrip s).reverse c (List.mem_reverse.mp hc)

/-! ### Line-splitting lemmas -/

lemma splitLines_ne_nil (t : Str) : splitLines t ≠ [] := by
  induction t with
  | nil => simp [splitLines]
  | cons c rest ih =>
    unfold splitLines
    by_cases hc : c = '\n'
    · simp [hc]
    · rw [if_neg hc]
      cases h : splitLines rest with
      | nil => simp
      | cons a as => simp

lemma splitLines_append_newline (t : Str) :
    splitLines (t ++ ['\n']) = splitLines t ++ [[]] := by
  induction t with
  | nil => simp [splitLines]
  | cons c rest ih =>
    by_cases hc : c = '\n'
    · subst hc
      rw [List.cons_append]
      simp only [splitLines, if_pos rfl]
      rw [ih]
      rfl
    · rw [List.cons_append]
      simp only [splitLines, if_neg hc]
      rw [ih]
      cases h : splitLines rest with
      | nil => exact absurd h (splitLines_ne_nil rest)
      | cons a as => simp

lemma splitLines_append_char {c : Char} (hc : ¬ c = '\n') (t : Str) :
    ∃ I L, splitLines t = I ++ [L] ∧ splitLines (t ++ [c]) = I ++ [L ++ [c]] := by
  induction t with
  | nil =>
    refine ⟨[], [], rfl, ?_⟩
    simp [splitLines, hc]
  | cons d rest ih =>
    obtain ⟨I, L, h1, h2⟩ := ih
    by_cases hd : d = '\n'
    · subst hd
      refine ⟨[] :: I, L, ?_, ?_⟩
      · simp only [splitLines, if_pos rfl]
        rw [h1]
        rfl
      · rw [List.cons_append]
        simp only [splitLines, if_pos rfl]
        rw [h2]
        rfl
    · cases I with
      | nil =>
        have h1' : splitLines rest = [L] := by simpa using h1
        have h2' : splitLines (rest ++ [c]) = [L ++ [c]] := by simpa using h2
        refine ⟨[], d :: L, ?_, ?_⟩
        · simp only [splitLines, if_neg hd, h1']
          rfl
        · rw [List.cons_append]
          simp only [splitLines, if_neg hd, h2']
          simp
      | cons a I' =>
        have h1' : splitLines rest = a :: (I' ++ [L]) := by simpa using h1
        have h2' : splitLines (rest ++ [c]) = a :: (I' ++ [L ++ [c]]) := by simpa using h2
        refine ⟨(d :: a) :: I', L, ?_, ?_⟩
        · simp only [splitLines, if_neg hd, h1']
          simp
        · rw [List.cons_append]
          simp only [splitLines, if_neg hd, h2']
          simp

/-! ### Lemmas about the matching primitives -/

lemma match_colon_bool {c : Char} {r : Str} (h : ¬ c = ':') :
    (match c :: r with | ':' :: _ => true | _ => false) = false := by
  split
  · rename_i heq
    injection heq with h1 h2
    exact absurd h1 h
  · rfl

lemma match_colon_opt {c : Char} {r : Str} (h : ¬ c = ':') :
    (match c :: r with | ':' :: rr => some (strip rr) | _ => none) = (none : Option Str) := by
  split
  · rename_i x heq
    injection heq with h1 h2
    exact absurd h1 h
  · rfl

lemma specLineMatches_eq_isSome (field l : Str) :
    specLineMatches field l = (matchCore field (strip l)).isSome := by
  unfold specLineMatches matchCore
  cases hdp : dropPrefixCI field (strip l) with
  | none => rfl
  | some rest =>
    show (match rest.dropWhile isSpace with | ':' :: _ => true | _ => false) =
      (match rest.dropWhile isSpace with | ':' :: r => some (strip r) | _ => none).isSome
    cases hdw : rest.dropWhile isSpace with
    | nil => rfl
    | cons c r =>
      by_cases hcc : c = ':'
      · subst hcc
        rfl
      · rw [match_colon_bool hcc, match_colon_opt hcc]
        rfl

lemma matchCore_some_elim {field s v : Str} (h : matchCore field s = some v) :
    ∃ rest r, dropPrefixCI field s = some rest ∧
      rest.dropWhile isSpace = ':' :: r ∧ v = strip r := by
  unfold matchCore at h
  split at h
  · rename_i rest heq
    split at h
    · rename_i r heq2
      injection h with hv
      exact ⟨rest, r, heq, heq2, hv.symm⟩
    · exact absurd h (by simp)
  · exact absurd h (by simp)

lemma dropPrefixCI_some_decomp : ∀ {f s r : Str}, dropPrefixCI f s = some r →
    ∃ p, s = p ++ r ∧ p.map Char.toLower = f.map Char.toLower := by
  intro f
  induction f with
  | nil =>
    intro s r h
    refine ⟨[], ?_, rfl⟩
    unfold dropPrefixCI at h
    injection h with h'
  | cons c fs ih =>
    intro s r h
    cases s with
    | nil => exact absurd h (by simp [dropPrefixCI])
    | cons d ds =>
      unfold dropPrefixCI at h
      by_cases hcd : c.toLower = d.toLower
      · rw [if_pos hcd] at h
        obtain ⟨p, hp1, hp2⟩ := ih h
        refine ⟨d :: p, by rw [List.cons_append, hp1], ?_⟩
        rw [List.map_cons, List.map_cons, hp2, hcd]
      · rw [if_neg hcd] at h
        exact absurd h (by simp)

lemma dropPrefixCI_of_lowerEq : ∀ {f p : Str}, p.map Char.toLower = f.map Char.toLower →
    ∀ r, dropPrefixCI f (p ++ r) = some r := by
  intro f
  induction f with
  | nil =>
    intro p h r
    have hp : p = [] := by
      cases p with
      | nil => rfl
      | cons d ds => exact absurd h (by simp)
    subst hp
    rfl
  | cons c fs ih =>
    intro p h r
    cases p with
    | nil => exact absurd h (by simp)
    | cons d ds =>
      rw [List.map_cons, List.map_cons] at h
      injection h with h1 h2
      rw [List.cons_append]
      unfold dropPrefixCI
      rw [if_pos h1.symm]
      exact ih h2 r

lemma dropPrefixCI_nil_right {f : Str} (h : f ≠ []) : dropPrefixCI f [] = none := by
  cases f with
  | nil => exact absurd rfl h
  | cons c fs => rfl

/-! ### Congruence of line matching under edge whitespace -/

lemma specLineMatches_nil {field : Str} (h : field ≠ []) :
    specLineMatches field [] = false := by
  unfold specLineMatches
  rw [show strip [] = [] from rfl, dropPrefixCI_nil_right h]

lemma specLineMatches_cons_ws {field : Str} {c : Char} {l : Str} (h : isSpace c = true) :
    specLineMatches field (c :: l) = specLineMatches field l := by
  unfold specLineMatches
  rw [strip_cons_ws h]

lemma specLineMatches_append_ws_char {field : Str} {l : Str} {c : Char}
    (h : isSpace c = true) :
    specLineMatches field (l ++ [c]) = specLineMatches field l := by
  unfold specLineMatches
  rw [strip_append_ws (by intro d hd; rw [List.mem_singleton] at hd; subst hd; exact h)]

lemma firstColonSplit_cons_ne {c : Char} {l : Str} (hc : ¬ c = ':') :
    firstColonSplit (c :: l) =
      match firstColonSplit l with
      | some pr => some (c :: pr.1, pr.2)
      | none => none := by
  show (if c = ':' then some ([], l) else
      match firstColonSplit l with
      | some pr => some (c :: pr.1, pr.2)
      | none => none) =
    match firstColonSplit l with
    | some pr => some (c :: pr.1, pr.2)
    | none => none
  rw [if_neg hc]

lemma specLineValue_cons_ne {c : Char} {l : Str} (hc : ¬ c = ':') :
    specLineValue (c :: l) = specLineValue l := by
  unfold specLineValue
  rw [firstColonSplit_cons_ne hc]
  cases firstColonSplit l with
  | some pr => rfl
  | none => rfl

lemma firstColonSplit_append_ne {c : Char} (hc : ¬ c = ':') :
    ∀ (l : Str), firstColonSplit (l ++ [c]) =
      match firstColonSplit l with
      | some pr => some (pr.1, pr.2 ++ [c])
      | none => none := by
  intro l
  induction l with
  | nil => simp [firstColonSplit, hc]
  | cons d l ih =>
    by_cases hd : d = ':'
    · subst hd
      simp [firstColonSplit]
    · rw [List.cons_append, firstColonSplit_cons_ne hd, firstColonSplit_cons_ne hd, ih]
      cases firstColonSplit l with
      | some pr => rfl
      | none => rfl

lemma specLineValue_append_ws_char {l : Str} {c : Char} (h : isSpace c = true) :
    specLineValue (l ++ [c]) = specLineValue l := by
  unfold specLineValue
  rw [firstColonSplit_append_ne (isSpace_ne_colon h) l]
  cases firstColonSplit l with
  | some pr =>
    show strip (pr.2 ++ [c]) = strip pr.2
    exact strip_append_ws (by intro d hd; rw [List.mem_singleton] at hd; subst hd; exact h)
  | none => rfl

lemma firstColonSplit_no_colon : ∀ {x : Str}, ':' ∉ x →
    ∀ (y : Str), firstColonSplit (x ++ ':' :: y) = some (x, y) := by
  intro x
  induction x with
  | nil =>
    intro _ y
    simp [firstColonSplit]
  | cons c x ih =>
    intro hx y
    have hc : ¬ c = ':' := by
      intro hh
      exact hx (hh ▸ List.mem_cons_self c x)
    rw [List.cons_append, firstColonSplit_cons_ne hc,
      ih (fun hm => hx (List.mem_cons_of_mem c hm)) y]

/-! ### The captured value is the trimmed after-first-colon part -/

lemma specLineValue_of_matchCore {field l v : Str}
    (hcol : ':' ∉ field.map Char.toLower)
    (h : matchCore field (strip l) = some v) : specLineValue l = v := by
  obtain ⟨rest, r, hdp, hdw, hv⟩ := matchCore_some_elim h
  obtain ⟨p, hsplit, hlow⟩ := dropPrefixCI_some_decomp hdp
  obtain ⟨a, b, hl, ha, hb⟩ := strip_decomp l
  have hrest : rest = rest.takeWhile isSpace ++ (':' :: r) := by
    conv_lhs => rw [← List.takeWhile_append_dropWhile isSpace rest]
    rw [hdw]
  have hltot : l = (a ++ (p ++ rest.takeWhile isSpace)) ++ ':' :: (r ++ b) := by
    conv_lhs => rw [hl, hsplit, hrest]
    simp [List.append_assoc]
  have hnocolon : ':' ∉ a ++ (p ++ rest.takeWhile isSpace) := by
    intro hmem
    rcases List.mem_append.mp hmem with hmem | hmem
    · exact isSpace_ne_colon (ha ':' hmem) rfl
    rcases List.mem_append.mp hmem with hmem | hmem
    · have h1 : Char.toLower ':' ∈ p.map Char.toLower :=
        List.mem_map_of_mem Char.toLower hmem
      rw [hlow] at h1
      rw [show Char.toLower ':' = ':' from by decide] at h1
      exact hcol h1
    · exact isSpace_ne_colon (all_takeWhile rest ':' hmem) rfl
  rw [hltot]
  unfold specLineValue
  rw [firstColonSplit_no_colon hnocolon]
  show strip (r ++ b) = v
  rw [strip_append_ws hb, hv]

/-! ### The inner loop of the parser realises the specification contract -/

lemma findFieldValue_eq_findLine {field : Str}
    (hcol : ':' ∉ field.map Char.toLower) :
    ∀ ls : List Str, findFieldValue field ls = findLine field ls := by
  intro ls
  induction ls with
  | nil => rfl
  | cons l ls ih =>
    show (match matchCore field (strip l) with
          | some v => some v
          | none => findFieldValue field ls) = findLine field (l :: ls)
    cases hm : matchCore field (strip l) with
    | some v =>
      have hsm : specLineMatches field l = true := by
        rw [specLineMatches_eq_isSome, hm]
        rfl
      unfold findLine
      rw [List.find?_cons_of_pos _ hsm]
      rw [Option.map_some']
      rw [specLineValue_of_matchCore hcol hm]
    | none =>
      have hsm : ¬ specLineMatches field l = true := by
        rw [specLineMatches_eq_isSome, hm]
        simp
      unfold findLine
      rw [List.find?_cons_of_neg _ hsm]
      exact ih

/-! ### Scanning is unaffected by the outer strip of the text -/

lemma findLine_cons_pos {field l : Str} {ls : List Str}
    (h : specLineMatches field l = true) :
    findLine field (l :: ls) = some (specLineValue l) := by
  unfold findLine
  rw [List.find?_cons_of_pos _ h, Option.map_some']

lemma findLine_cons_nonmatch {field l : Str} {ls : List Str}
    (h : specLineMatches field l = false) :
    findLine field (l :: ls) = findLine field ls := by
  unfold findLine
  rw [List.find?_cons_of_neg _ (by simp [h])]

lemma findLine_cons_congr {field l l' : Str} {ls : List Str}
    (hm : specLineMatches field l = specLineMatches field l')
    (hv : specLineValue l = specLineValue l') :
    findLine field (l :: ls) = findLine field (l' :: ls) := by
  cases hml : specLineMatches field l' with
  | true => rw [findLine_cons_pos (hm.trans hml), findLine_cons_pos hml, hv]
  | false => rw [findLine_cons_nonmatch (hm.trans hml), findLine_cons_nonmatch hml]

lemma findLine_splitLines_cons_ws {field : Str} (hf : field ≠ []) {c : Char}
    (hc : isSpace c = true) (t : Str) :
    findLine field (splitLines (c :: t)) = findLine field (splitLines t) := by
  by_cases hn : c = '\n'
  · subst hn
    rw [show splitLines ('\n' :: t) = [] :: splitLines t from by simp [splitLines]]
    exact findLine_cons_nonmatch (specLineMatches_nil hf)
  · cases h : splitLines t with
    | nil => exact absurd h (splitLines_ne_nil t)
    | cons a as =>
      have hsplit : splitLines (c :: t) = (c :: a) :: as := by
        show (if c = '\n' then [] :: splitLines t else
          match splitLines t with | h :: hs => (c :: h) :: hs | [] => [[c]]) = (c :: a) :: as
        rw [if_neg hn, h]
      rw [hsplit]
      exact findLine_cons_congr (specLineMatches_cons_ws hc)
        (specLineValue_cons_ne (isSpace_ne_colon hc))

lemma findLine_append_last_ws {field : Str} {c : Char} (hc : isSpace c = true) :
    ∀ (I : List Str) (L : Str),
      findLine field (I ++ [L ++ [c]]) = findLine field (I ++ [L]) := by
  intro I L
  induction I with
  | nil =>
    rw [List.nil_append, List.nil_append]
    exact findLine_cons_congr (specLineMatches_append_ws_char hc)
      (specLineValue_append_ws_char hc)
  | cons a I ih =>
    rw [List.cons_append, List.cons_append]
    cases ha : specLineMatches field a with
    | true => rw [findLine_cons_pos ha, findLine_cons_pos ha]
    | false =>
      rw [findLine_cons_nonmatch ha, findLine_cons_nonmatch ha]
      exact ih

lemma findLine_splitLines_append_ws {field : Str} (hf : field ≠ []) {c : Char}
    (hc : isSpace c = true) (t : Str) :
    findLine field (splitLines (t ++ [c])) = findLine field (splitLines t) := by
  by_cases hn : c = '\n'
  · subst hn
    rw [splitLines_append_newline]
    unfold findLine
    rw [List.find?_append]
    rw [show (List.find? (fun l => specLineMatches field l) [[]]) = none from by
      simp [List.find?, specLineMatches_nil hf]]
    cases (splitLines t).find? (fun l => specLineMatches field l) with
    | some v => rfl
    | none => rfl
  · obtain ⟨I, L, h1, h2⟩ := splitLines_append_char hn t
    rw [h1, h2]
    exact findLine_append_last_ws hc I L

lemma findLine_splitLines_ws_front {field : Str} (hf : field ≠ []) :
    ∀ {a : Str}, (∀ c ∈ a, isSpace c = true) → ∀ (t : Str),
      findLine field (splitLines (a ++ t)) = findLine field (splitLines t) := by
  intro a
  induction a with
  | nil => intro _ t; rfl
  | cons c a ih =>
    intro ha t
    rw [List.cons_append]
    rw [findLine_splitLines_cons_ws hf (ha c (List.mem_cons_self c a)) (a ++ t)]
    exact ih (fun d hd => ha d (List.mem_cons_of_mem c hd)) t

lemma findLine_splitLines_ws_suffix {field : Str} (hf : field ≠ []) :
    ∀ {b : Str}, (∀ c ∈ b, isSpace c = true) → ∀ (t : Str),
      findLine field (splitLines (t ++ b)) = findLine field (splitLines t) := by
  intro b
  induction b with
  | nil => intro _ t; rw [List.append_nil]
  | cons c b ih =>
    intro hb t
    have h1 : t ++ (c :: b) = (t ++ [c]) ++ b := by simp
    rw [h1, ih (fun d hd => hb d (List.mem_cons_of_mem c hd)) (t ++ [c]),
      findLine_splitLines_append_ws hf (hb c (List.mem_cons_self c b)) t]

lemma findLine_splitLines_strip {field : Str} (hf : field ≠ []) (t : Str) :
    findLine field (splitLines (strip t)) = findLine field (splitLines t) := by
  obtain ⟨a, b, hd, ha, hb⟩ := strip_decomp t
  conv_rhs => rw [hd]
  rw [List.append_assoc, findLine_splitLines_ws_front hf ha (strip t ++ b),
    findLine_splitLines_ws_suffix hf hb (strip t)]

/-! ### Dictionary lemmas for the parser result -/

lemma setKey_cons (k : Str) (v : Option Str) (k' : Str) (v' : Option Str)
    (d : List (Str × Option Str)) :
    setKey k v ((k', v') :: d) =
      if k' = k then (k', v) :: d else (k', v') :: setKey k v d := rfl

lemma getKey_cons (q k : Str) (v : Option Str) (d : List (Str × Option Str)) :
    getKey q ((k, v) :: d) = if k = q then some v else getKey q d := rfl

lemma getKey_setKey_same (k : Str) (v : Option Str) :
    ∀ d : List (Str × Option Str), getKey k (setKey k v d) = some v := by
  intro d
  induction d with
  | nil =>
    show getKey k [(k, v)] = some v
    rw [getKey_cons, if_pos rfl]
  | cons kv d ih =>
    obtain ⟨k', v'⟩ := kv
    rw [setKey_cons]
    by_cases h : k' = k
    · rw [if_pos h, getKey_cons, if_pos h]
    · rw [if_neg h, getKey_cons, if_neg h]
      exact ih

lemma getKey_setKey_ne {k q : Str} (h : q ≠ k) (v : Option Str) :
    ∀ d : List (Str × Option Str), getKey q (setKey k v d) = getKey q d := by
  intro d
  induction d with
  | nil =>
    show getKey q [(k, v)] = none
    rw [getKey_cons, if_neg (fun hh => h hh.symm)]
    rfl
  | cons kv d ih =>
    obtain ⟨k', v'⟩ := kv
    rw [setKey_cons]
    by_cases hk : k' = k
    · rw [if_pos hk, getKey_cons, getKey_cons]
      have hq : ¬ k' = q := fun hh => h (hk ▸ hh.symm ▸ rfl)
      rw [if_neg hq, if_neg hq]
    · rw [if_neg hk, getKey_cons, getKey_cons]
      by_cases hq : k' = q
      · rw [if_pos hq, if_pos hq]
      · rw [if_neg hq, if_neg hq]
        exact ih

lemma getKey_parse_foldl_not_mem (lines : List Str) :
    ∀ (fs : List Str) (d : List (Str × Option Str)) (f : Str), f ∉ fs →
      getKey f (List.foldl
        (fun data field =>
          match findFieldValue field lines with
          | some value => setKey field (some value) data
          | none => data) d fs) = getKey f d := by
  intro fs
  induction fs with
  | nil => intro d f _; rfl
  | cons g fs ih =>
    intro d f hf
    rw [List.foldl_cons]
    have hfg : f ≠ g := fun h => hf (h ▸ List.mem_cons_self g fs)
    rw [ih _ f (fun h => hf (List.mem_cons_of_mem g h))]
    cases findFieldValue g lines with
    | some v => exact getKey_setKey_ne hfg (some v) d
    | none => rfl

lemma getKey_parse_foldl_mem (lines : List Str) :
    ∀ (fs : List Str) (d : List (Str × Option Str)) (f : Str), f ∈ fs → fs.Nodup →
      getKey f (List.foldl
        (fun data field =>
          match findFieldValue field lines with
          | some value => setKey field (some value) data
          | none => data) d fs) =
        match findFieldValue f lines with
        | some v => some (some v)
        | none => getKey f d := by
  intro fs
  induction fs with
  | nil => intro d f hf _; exact absurd hf (List.not_mem_nil f)
  | cons g fs ih =>
    intro d f hf hnd
    rw [List.foldl_cons]
    obtain ⟨hg, hnd'⟩ := List.nodup_cons.mp hnd
    rcases List.mem_cons.mp hf with rfl | hf'
    · rw [getKey_parse_foldl_not_mem lines fs _ f hg]
      cases hv : findFieldValue f lines with
      | some v => exact getKey_setKey_same f (some v) d
      | none => rfl
    · have hfg : f ≠ g := fun h => hg (h ▸ hf')
      rw [ih _ f hf' hnd']
      cases findFieldValue f lines with
      | some w => rfl
      | none =>
        cases findFieldValue g lines with
        | some v => exact getKey_setKey_ne hfg (some v) d
        | none => rfl

lemma getKey_init {f : Str} : ∀ {l : List Str}, f ∈ l →
    getKey f (l.map (fun field => (field, (none : Option Str)))) = some none := by
  intro l
  induction l with
  | nil => intro h; exact absurd h (List.not_mem_nil f)
  | cons x l ih =>
    intro h
    rw [List.map_cons, getKey_cons]
    by_cases hx : x = f
    · rw [if_pos hx]
    · rw [if_neg hx]
      refine ih ?_
      rcases List.mem_cons.mp h with rfl | h
      · exact absurd rfl hx
      · exact h

lemma field_names_nodup : field_names.Nodup := by decide

lemma getKey_extract (text : Str) {f : Str} (hf : f ∈ field_names) :
    getKey f (extract_structured_data text) =
      some (findFieldValue f (splitLines (strip text))) := by
  unfold extract_structured_data
  rw [getKey_parse_foldl_mem (splitLines (strip text)) field_names _ f hf field_names_nodup]
  cases hv : findFieldValue f (splitLines (strip text)) with
  | some v => rfl
  | none => exact getKey_init hf

lemma field_props {f : Str} (hf : f ∈ field_names) :
    f ≠ [] ∧ ':' ∉ f.map Char.toLower := by
  fin_cases hf <;> exact ⟨by decide, by decide⟩

lemma extract_eq_specParse (text : Str) {f : Str} (hf : f ∈ field_names) :
    getKey f (extract_structured_data text) = some (specParse f text) := by
  obtain ⟨hne, hcol⟩ := field_props hf
  rw [getKey_extract text hf, findFieldValue_eq_findLine hcol, findLine_splitLines_strip hne]
  rfl

/-! ### The key set of the parser result -/

lemma map_fst_setKey {k : Str} (v : Option Str) :
    ∀ {d : List (Str × Option Str)}, k ∈ d.map Prod.fst →
      (setKey k v d).map Prod.fst = d.map Prod.fst := by
  intro d
  induction d with
  | nil => intro h; exact absurd h (List.not_mem_nil k)
  | cons kv d ih =>
    obtain ⟨k', v'⟩ := kv
    intro h
    rw [setKey_cons]
    by_cases hk : k' = k
    · rw [if_pos hk]
      rfl
    · rw [if_neg hk]
      rw [List.map_cons, List.map_cons, ih ?_]
      rw [List.map_cons] at h
      rcases List.mem_cons.mp h with rfl | h
      · exact absurd rfl hk
      · exact h

lemma parse_foldl_keys (lines : List Str) :
    ∀ (fs : List Str) (d : List (Str × Option Str)), (∀ f ∈ fs, f ∈ d.map Prod.fst) →
      (List.foldl
        (fun data field =>
          match findFieldValue field lines with
          | some value => setKey field (some value) data
          | none => data) d fs).map Prod.fst = d.map Prod.fst := by
  intro fs
  induction fs with
  | nil => intro d _; rfl
  | cons g fs ih =>
    intro d h
    rw [List.foldl_cons]
    have hkeys : (match findFieldValue g lines with
        | some value => setKey g (some value) d
        | none => d).map Prod.fst = d.map Prod.fst := by
      cases findFieldValue g lines with
      | some v => exact map_fst_setKey (some v) (h g (List.mem_cons_self g fs))
      | none => rfl
    rw [ih _ ?_, hkeys]
    intro f hf
    rw [hkeys]
    exact h f (List.mem_cons_of_mem g hf)

/-! ### Comparator characterisation -/

lemma compare_loop_eq (e : List (Str × Option Str)) :
    ∀ (entries : List (Str × Str)) (acc : Nat × List (Str × Mismatch)),
      List.foldl (fun acc kv =>
        let extracted_value := pyGet e kv.1
        if extracted_value = some kv.2 then (acc.1 + 1, acc.2)
        else (acc.1, acc.2 ++ [(kv.1, ⟨kv.2, extracted_value⟩)])) acc entries =
      (acc.1 + matchedCount e entries, acc.2 ++ mismatchSet e entries) := by
  intro entries
  induction entries with
  | nil => intro acc; simp [matchedCount, mismatchSet]
  | cons kv tl ih =>
    intro acc
    rw [List.foldl_cons]
    show List.foldl _ (if pyGet e kv.1 = some kv.2 then (acc.1 + 1, acc.2)
        else (acc.1, acc.2 ++ [(kv.1, ⟨kv.2, pyGet e kv.1⟩)])) tl = _
    by_cases h : pyGet e kv.1 = some kv.2
    · rw [if_pos h, ih]
      have hm : matchedCount e (kv :: tl) = matchedCount e tl + 1 := by
        simp [matchedCount, List.countP_cons, h]
      have hs : mismatchSet e (kv :: tl) = mismatchSet e tl := by
        simp [mismatchSet, List.filterMap_cons, h]
      rw [hm, hs]
      simp only [Prod.mk.injEq]
      exact ⟨by omega, trivial⟩
    · rw [if_neg h, ih]
      have hm : matchedCount e (kv :: tl) = matchedCount e tl := by
        simp [matchedCount, List.countP_cons, h]
      have hs : mismatchSet e (kv :: tl) = (kv.1, ⟨kv.2, pyGet e kv.1⟩) :: mismatchSet e tl := by
        simp [mismatchSet, List.filterMap_cons, h]
      rw [hm, hs]
      simp

lemma compare_loop_spec (e : List (Str × Option Str)) (entries : List (Str × Str)) :
    compare_loop e entries = (matchedCount e entries, mismatchSet e entries) := by
  unfold compare_loop
  rw [compare_loop_eq]
  simp

lemma compare_data_cons (e : List (Str × Option Str)) (kv : Str × Str)
    (tl : List (Str × Str)) :
    compare_data e (some (kv :: tl)) =
      ⟨(matchedCount e (kv :: tl) : ℚ) / (((kv :: tl).length : Nat) : ℚ) * 100,
        mismatchSet e (kv :: tl), none⟩ := by
  show (⟨if 0 < (kv :: tl).length then
      ((compare_loop e (kv :: tl)).1 : ℚ) / (((kv :: tl).length : Nat) : ℚ) * 100 else 0,
      (compare_loop e (kv :: tl)).2, none⟩ : CompResult) = _
  rw [compare_loop_spec, if_pos (by simp)]

lemma compare_data_ne_nil (e : List (Str × Option Str)) {entries : List (Str × Str)}
    (h : entries ≠ []) :
    compare_data e (some entries) =
      ⟨(matchedCount e entries : ℚ) / ((entries.length : Nat) : ℚ) * 100,
        mismatchSet e entries, none⟩ := by
  cases entries with
  | nil => exact absurd rfl h
  | cons kv tl => exact compare_data_cons e kv tl

lemma matched_add_mismatch (e : List (Str × Option Str)) :
    ∀ entries : List (Str × Str),
      matchedCount e entries + (mismatchSet e entries).length = entries.length := by
  intro entries
  induction entries with
  | nil => rfl
  | cons kv tl ih =>
    by_cases h : pyGet e kv.1 = some kv.2
    · have hm : matchedCount e (kv :: tl) = matchedCount e tl + 1 := by
        simp [matchedCount, List.countP_cons, h]
      have hs : mismatchSet e (kv :: tl) = mismatchSet e tl := by
        simp [mismatchSet, List.filterMap_cons, h]
      rw [hm, hs, List.length_cons]
      omega
    · have hm : matchedCount e (kv :: tl) = matchedCount e tl := by
        simp [matchedCount, List.countP_cons, h]
      have hs : mismatchSet e (kv :: tl) = (kv.1, ⟨kv.2, pyGet e kv.1⟩) :: mismatchSet e tl := by
        simp [mismatchSet, List.filterMap_cons, h]
      rw [hm, hs, List.length_cons, List.length_cons]
      omega

lemma matchedCount_le (e : List (Str × Option Str)) (entries : List (Str × Str)) :
    matchedCount e entries ≤ entries.length := by
  unfold matchedCount
  exact List.countP_le_length _

/-! ### Claims about the comparator -/

/-- C2: on a present, non-empty reference record `compare_data` iterates
over exactly the reference keys, compares each reference value with the
(possibly absent) extracted value by exact string equality, records every
non-matching key in the mismatch set together with the expected and the
actual value, and returns accuracy `(matched / total) * 100` with no
error; in particular a record that agrees with the reference on every
reference key yields accuracy 100, an empty mismatch set and no error. -/
theorem C2_compare_contract (e : List (Str × Option Str)) (entries : List (Str × Str))
    (h : entries ≠ []) :
    compare_data e (some entries) =
      ⟨(matchedCount e entries : ℚ) / ((entries.length : Nat) : ℚ) * 100,
        mismatchSet e entries, none⟩ ∧
    ((∀ kv ∈ entries, pyGet e kv.1 = some kv.2) →
      compare_data e (some entries) = ⟨100, [], none⟩) := by
  refine ⟨compare_data_ne_nil e h, ?_⟩
  intro hall
  rw [compare_data_ne_nil e h]
  have hm : matchedCount e entries = entries.length := by
    unfold matchedCount
    rw [List.countP_eq_length]
    intro kv hkv
    exact decide_eq_true (hall kv hkv)
  have hs : mismatchSet e entries = [] := by
    unfold mismatchSet
    rw [List.filterMap_eq_nil_iff]
    intro kv hkv
    rw [if_pos (hall kv hkv)]
  have hlen : ((entries.length : Nat) : ℚ) ≠ 0 := by
    rw [Nat.cast_ne_zero]
    intro h0
    exact h (List.length_eq_zero.mp h0)
  rw [hm, hs, div_self hlen, one_mul]

theorem C2_witness :
    compare_data [("Name".toList, some "A".toList)] (some [("Name".toList, "A".toList)]) =
      ⟨100, [], none⟩ :=
  (C2_compare_contract _ _ (by decide)).2 (by decide)

/-- C10: the match count and the mismatch set of the comparison loop
partition the reference keys; on a present reference the accuracy equals
`100 * (total - mismatches) / total` when the reference is non-empty,
always lies in the interval `[0, 100]`, and on a non-empty reference
equals 100 exactly when the mismatch set is empty. -/
theorem C10_partition_and_bounds (e : List (Str × Option Str)) (entries : List (Str × Str)) :
    (compare_loop e entries).1 + (compare_loop e entries).2.length = entries.length ∧
    (entries ≠ [] →
      (compare_data e (some entries)).accuracy =
        100 * (((entries.length : Nat) : ℚ) - (((compare_loop e entries).2.length : Nat) : ℚ)) /
          ((entries.length : Nat) : ℚ)) ∧
    (0 ≤ (compare_data e (some entries)).accuracy ∧
      (compare_data e (some entries)).accuracy ≤ 100) ∧
    (entries ≠ [] →
      ((compare_data e (some entries)).accuracy = 100 ↔
        (compare_data e (some entries)).mismatched_fields = [])) := by
  have hpart := matched_add_mismatch e entries
  have hcast : (matchedCount e entries : ℚ) + ((mismatchSet e entries).length : ℚ) =
      ((entries.length : Nat) : ℚ) := by exact_mod_cast hpart
  refine ⟨?_, ?_, ?_, ?_⟩
  · rw [compare_loop_spec]
    exact hpart
  · intro h
    have hacc : (compare_data e (some entries)).accuracy =
        (matchedCount e entries : ℚ) / ((entries.length : Nat) : ℚ) * 100 := by
      rw [compare_data_ne_nil e h]
    rw [hacc, compare_loop_spec]
    have hM : (matchedCount e entries : ℚ) =
        ((entries.length : Nat) : ℚ) - ((mismatchSet e entries).length : ℚ) := by
      linarith
    rw [hM]
    ring
  · rcases entries with _ | ⟨kv, tl⟩
    · constructor
      · exact le_refl 0
      · show (0 : ℚ) ≤ 100
        norm_num
    · have hacc : (compare_data e (some (kv :: tl))).accuracy =
          (matchedCount e (kv :: tl) : ℚ) / (((kv :: tl).length : Nat) : ℚ) * 100 := by
        rw [compare_data_cons]
      have hlt : (0 : ℚ) < (((kv :: tl).length : Nat) : ℚ) := by
        rw [Nat.cast_pos]
        simp
      constructor
      · rw [hacc]
        positivity
      · rw [hacc]
        have h1 : (matchedCount e (kv :: tl) : ℚ) ≤ (((kv :: tl).length : Nat) : ℚ) := by
          exact_mod_cast matchedCount_le e (kv :: tl)
        calc (matchedCount e (kv :: tl) : ℚ) / (((kv :: tl).length : Nat) : ℚ) * 100
            ≤ 1 * 100 := by
              apply mul_le_mul_of_nonneg_right _ (by norm_num)
              rw [div_le_one hlt]
              exact h1
          _ = 100 := one_mul 100
  · intro h
    have hlen : ((entries.length : Nat) : ℚ) ≠ 0 := by
      rw [Nat.cast_ne_zero]
      intro h0
      exact h (List.length_eq_zero.mp h0)
    have hacc : (compare_data e (some entries)).accuracy =
        (matchedCount e entries : ℚ) / ((entries.length : Nat) : ℚ) * 100 := by
      rw [compare_data_ne_nil e h]
    have hmm : (compare_data e (some entries)).mismatched_fields = mismatchSet e entries := by
      rw [compare_data_ne_nil e h]
    rw [hacc, hmm]
    constructor
    · intro h100
      have hdiv : (matchedCount e entries : ℚ) / ((entries.length : Nat) : ℚ) = 1 := by
        have h100' : (matchedCount e entries : ℚ) / ((entries.length : Nat) : ℚ) * 100 =
            1 * 100 := by
          rw [h100, one_mul]
        exact mul_right_cancel₀ (by norm_num) h100'
      have hMq : (matchedCount e entries : ℚ) = ((entries.length : Nat) : ℚ) := by
        rw [div_eq_iff hlen] at hdiv
        rw [hdiv, one_mul]
      have hMn : matchedCount e entries = entries.length := by exact_mod_cast hMq
      have hS : (mismatchSet e entries).length = 0 := by omega
      exact List.length_eq_zero.mp hS
    · intro hnil
      have hS : (mismatchSet e entries).length = 0 := by rw [hnil]; rfl
      have hMn : matchedCount e entries = entries.length := by omega
      rw [hMn, div_self hlen, one_mul]

theorem C10_witness :
    ((compare_data [] (some [("Name".toList, "B".toList)])).accuracy = 100 ↔
      (compare_data [] (some [("Name".toList, "B".toList)])).mismatched_fields = []) ∧
    ((compare_data [] (some [("Name".toList, "B".toList)])).accuracy =
      100 * ((([("Name".toList, "B".toList)].length : Nat) : ℚ) -
        (((compare_loop [] [("Name".toList, "B".toList)]).2.length : Nat) : ℚ)) /
          (([("Name".toList, "B".toList)].length : Nat) : ℚ)) :=
  ⟨(C10_partition_and_bounds [] [("Name".toList, "B".toList)]).2.2.2 (by decide),
    (C10_partition_and_bounds [] [("Name".toList, "B".toList)]).2.1 (by decide)⟩

/-- C4 counterexample: applied to a present but empty reference record,
`compare_data` takes the `if not db_data` branch, so the error field is
the not-found message rather than the absent error of a completed
comparison, contradicting the claim. -/
theorem C4_counterexample :
    compare_data [] (some ([] : List (Str × Str))) =
      ⟨0, [], some "Sr no. not found in database.".toList⟩ ∧
    (compare_data [] (some ([] : List (Str × Str)))).error ≠ none := by
  constructor
  · rfl
  · intro h
    exact Option.noConfusion h

/-- C4 amended: for every record, a present but empty reference record
yields accuracy 0, an empty mismatch set and the error string
`Sr no. not found in database.` — the empty reference is treated exactly
like the absent reference, not as a completed comparison. -/
theorem C4_empty_reference (e : List (Str × Option Str)) :
    compare_data e (some []) = ⟨0, [], some "Sr no. not found in database.".toList⟩ := rfl

/-- C6: applied to an absent reference record, `compare_data` returns
exactly accuracy 0, an empty mismatch set, and the error string
`Sr no. not found in database.`. -/
theorem C6_absent_reference (e : List (Str × Option Str)) :
    compare_data e none = ⟨0, [], some "Sr no. not found in database.".toList⟩ := rfl

/-! ### Claims about the field parser -/

/-- C1: for every input text and each of the six field names,
`extract_structured_data` assigns the field the value taken from the
first line of the text (split on newline, scanned top to bottom) which,
after trimming leading and trailing whitespace, starts with the field
label (case-insensitively) followed by a colon with optional whitespace
around the colon; the value is everything after that first colon on the
line, trimmed of surrounding whitespace, and later matching lines are
ignored. -/
theorem C1_first_matching_line (text field : Str) (h : field ∈ field_names) :
    getKey field (extract_structured_data text) = some (specParse field text) :=
  extract_eq_specParse text h

theorem C1_witness :
    getKey "City".toList (extract_structured_data "City: Pune\nCity: Delhi".toList) =
      some (some "Pune".toList) ∧
    specParse "City".toList "City: Pune\nCity: Delhi".toList = some "Pune".toList :=
  ⟨(C1_first_matching_line "City: Pune\nCity: Delhi".toList "City".toList
      (by decide)).trans (by decide),
    by decide⟩

/-- C7: a field with no matching line in the text is recorded as absent
(the key is present and bound to `none`, not to the empty string and not
omitted), while a line consisting of the label and a colon with nothing
after it yields a present empty-string value, distinct from absent. -/
theorem C7_absent_versus_empty :
    (∀ text field, field ∈ field_names →
      (∀ l ∈ splitLines text, specLineMatches field l = false) →
      getKey field (extract_structured_data text) = some none) ∧
    getKey "Name".toList (extract_structured_data "Name:".toList) = some (some []) := by
  constructor
  · intro text field hf hnone
    rw [extract_eq_specParse text hf]
    unfold specParse findLine
    have hfind : (splitLines text).find? (fun l => specLineMatches field l) = none := by
      rw [List.find?_eq_none]
      intro l hl
      rw [hnone l hl]
      simp
    rw [hfind]
    rfl
  · decide

theorem C7_witness :
    getKey "Age".toList (extract_structured_data "Name: A".toList) = some none :=
  C7_absent_versus_empty.1 "Name: A".toList "Age".toList (by decide) (by decide)

/-- C8: label matching is case-insensitive: replacing the label occurrence
at the head of a line by any spelling with the same lowercase image does
not change the result of the line matcher, and the lines `NAME: Bob` and
`name: Bob` both yield the value `Bob`, stored under the canonical field
name `Name`. -/
theorem C8_case_insensitive_labels :
    (∀ field cased rest : Str, cased.map Char.toLower = field.map Char.toLower →
      matchCore field (cased ++ rest) = matchCore field (field ++ rest)) ∧
    getKey "Name".toList (extract_structured_data "NAME: Bob".toList) =
      some (some "Bob".toList) ∧
    getKey "Name".toList (extract_structured_data "name: Bob".toList) =
      some (some "Bob".toList) := by
  refine ⟨?_, by decide, by decide⟩
  intro field cased rest hlow
  unfold matchCore
  rw [dropPrefixCI_of_lowerEq hlow rest, dropPrefixCI_of_lowerEq rfl rest]

theorem C8_witness :
    matchCore "Name".toList ("NAME".toList ++ ": Bob".toList) =
      matchCore "Name".toList ("Name".toList ++ ": Bob".toList) :=
  C8_case_insensitive_labels.1 "Name".toList "NAME".toList ": Bob".toList (by decide)

/-- C9: for every input text the parser result binds exactly the six
canonical keys `Sr no.`, `Name`, `City`, `Age`, `Country`, `Address`, in
order — never more and never fewer — each to an optional string value. -/
theorem C9_exactly_six_keys (text : Str) :
    (extract_structured_data text).map Prod.fst = field_names := by
  have hinit : (field_names.map (fun field => (field, (none : Option Str)))).map Prod.fst =
      field_names := by decide
  unfold extract_structured_data
  rw [parse_foldl_keys (splitLines (strip text)) field_names _
    (fun f hf => by rw [hinit]; exact hf), hinit]

/-! ### Claims about the text-extraction adapters -/

lemma startsWith_append_of {p l : Str} (h : startsWith p l = true) :
    ∀ m, startsWith p (l ++ m) = true := by
  induction p generalizing l with
  | nil => intro m; rfl
  | cons c p ih =>
    intro m
    cases l with
    | nil => exact absurd h (by simp [startsWith])
    | cons d l' =>
      rw [List.cons_append]
      unfold startsWith at h ⊢
      rw [Bool.and_eq_true] at h ⊢
      exact ⟨h.1, ih h.2 m⟩

/-- C3 counterexample: when the OCR service itself reports an error
(`IsErroredOnProcessing` true, `ErrorMessage` present), the adapter
returns a string starting with `OCR Space API Error: `, which does not
begin with `Error`, so the claimed prefix convention fails on this
backend failure. -/
theorem C3_counterexample :
    ocr_image_via_api (OcrOutcome.response true true none (some "x".toList)) =
      "OCR Space API Error: x".toList ∧
    startsWith "Error".toList
      (ocr_image_via_api (OcrOutcome.response true true none (some "x".toList))) = false := by
  constructor
  · decide
  · decide

/-- C3 amended: exceptions are converted to strings beginning with
`Error` (connection errors, other processing errors, and every PDF
extraction failure), but an error reported by the OCR service yields a
string beginning with `OCR Space API Error: `, and missing content yields
the fixed string `No text found in image.`; no failure raises an
exception. -/
theorem C3_error_marker_by_failure_kind :
    (∀ msg, startsWith "Error".toList (ocr_image_via_api (OcrOutcome.requestError msg)) = true) ∧
    (∀ msg, startsWith "Error".toList (ocr_image_via_api (OcrOutcome.otherError msg)) = true) ∧
    (∀ truthy errored parsedText errorMessage, (truthy && !errored) = false →
      startsWith "OCR Space API Error: ".toList
        (ocr_image_via_api (OcrOutcome.response truthy errored parsedText errorMessage)) = true) ∧
    (∀ errorMessage,
      ocr_image_via_api (OcrOutcome.response true false none errorMessage) =
        "No text found in image.".toList) ∧
    (∀ msg, startsWith "Error".toList (extract_text_from_pdf (PdfOutcome.failure msg)) = true) := by
  refine ⟨?_, ?_, ?_, ?_, ?_⟩
  · intro msg
    exact startsWith_append_of (by decide) msg
  · intro msg
    exact startsWith_append_of (by decide) msg
  · intro truthy errored parsedText errorMessage h
    cases truthy with
    | false => exact startsWith_append_of (by decide) _
    | true =>
      cases errored with
      | false => exact absurd h (by decide)
      | true => exact startsWith_append_of (by decide) _
  · intro errorMessage
    rfl
  · intro msg
    exact startsWith_append_of (by decide) msg

theorem C3_witness :
    startsWith "OCR Space API Error: ".toList
      (ocr_image_via_api (OcrOutcome.response false false none none)) = true :=
  C3_error_marker_by_failure_kind.2.2.1 false false none none (by decide)

/-! ### Claims about the per-file orchestration -/

/-- C5 counterexample: on the text `Sr no.:` the parser records a
present-but-empty `Sr no.` value, yet the orchestration takes the falsy
branch, records the cannot-compare error, and never produces an accuracy
— contradicting the claim that the comparator is invoked for every
non-absent value including the empty string. -/
theorem C5_counterexample :
    pyGet (extract_structured_data "Sr no.:".toList) "Sr no.".toList = some [] ∧
    index "docx".toList "Sr no.:".toList =
      ⟨extract_structured_data "Sr no.:".toList, none, [],
        some "Sr no. not found in extracted data, cannot compare.".toList⟩ := by
  constructor
  · decide
  · decide

/-- C5 amended: after a successful extraction on an allowed extension,
the comparator and the reference lookup are invoked if and only if the
parsed `Sr no.` value is present and non-empty (Python truthiness);
when the value is absent or present but empty, the orchestration records
the error `Sr no. not found in extracted data, cannot compare.` and
invokes neither the comparator nor the reference lookup, leaving the
accuracy absent. -/
theorem C5_sr_no_gate :
    (∀ lookupFn compareFn ext text,
      ext ∈ allowed_extensions → text ≠ [] → startsWith "Error".toList text = false →
      (pyGet (extract_structured_data text) "Sr no.".toList = none ∨
        pyGet (extract_structured_data text) "Sr no.".toList = some []) →
      process_file lookupFn compareFn ext text =
        ⟨extract_structured_data text, none, [],
          some "Sr no. not found in extracted data, cannot compare.".toList⟩) ∧
    (∀ lookupFn compareFn ext text v,
      ext ∈ allowed_extensions → text ≠ [] → startsWith "Error".toList text = false →
      pyGet (extract_structured_data text) "Sr no.".toList = some v → v ≠ [] →
      process_file lookupFn compareFn ext text =
        ⟨extract_structured_data text,
          some (compareFn (extract_structured_data text) (lookupFn v)).accuracy,
          (compareFn (extract_structured_data text) (lookupFn v)).mismatched_fields,
          (compareFn (extract_structured_data text) (lookupFn v)).error⟩) := by
  constructor
  · intro lookupFn compareFn ext text hext htext herr hsr
    simp only [process_file]
    rw [if_pos ⟨htext, herr⟩, if_pos hext]
    rcases hsr with hsr | hsr
    · rw [hsr]
    · rw [hsr]
      simp
  · intro lookupFn compareFn ext text v hext htext herr hsr hv
    simp only [process_file]
    rw [if_pos ⟨htext, herr⟩, if_pos hext, hsr]
    simp [hv]

theorem C5_witness :
    process_file get_database_data compare_data "docx".toList "Name: A".toList =
      ⟨extract_structured_data "Name: A".toList, none, [],
        some "Sr no. not found in extracted data, cannot compare.".toList⟩ ∧
    process_file get_database_data compare_data "docx".toList "Sr no.: S001".toList =
      ⟨extract_structured_data "Sr no.: S001".toList,
        some (compare_data (extract_structured_data "Sr no.: S001".toList)
          (get_database_data "S001".toList)).accuracy,
        (compare_data (extract_structured_data "Sr no.: S001".toList)
          (get_database_data "S001".toList)).mismatched_fields,
        (compare_data (extract_structured_data "Sr no.: S001".toList)
          (get_database_data "S001".toList)).error⟩ :=
  ⟨C5_sr_no_gate.1 get_database_data compare_data "docx".toList "Name: A".toList
      (by decide) (by decide) (by decide) (Or.inl (by decide)),
    C5_sr_no_gate.2 get_database_data compare_data "docx".toList "Sr no.: S001".toList
      "S001".toList (by decide) (by decide) (by decide) (by decide) (by decide)⟩
